import Mathlib

/-!
# Verification of the PLSA EM engine (yedivanseven/PLSA)

A shallow embedding of the core of the repository:

* `src/plsa/algorithms/base.py`   — the EM engine (`BasePLSA`)
* `src/plsa/algorithms/plsa.py`   — the symmetric variant (`PLSA`)
* `src/plsa/algorithms/conditional_plsa.py` — the asymmetric variant
* `src/plsa/algorithms/result.py` — the result packager (`PlsaResult`)

Modelling conventions:

* numpy float64 arrays are modelled as functions `Fin n → ℚ` (or curried
  versions for 2-D and 3-D arrays) over exact rationals; `finfo(float).eps`
  is the exact rational `2 ^ (-52)`.
* `numpy.log` (an irrational-valued function) is an explicit parameter
  `log : ℚ → ℚ` of every definition that needs it, so theorems quantify
  over it; none of the claims settled here depends on its values.
* in-place mutation is modelled by explicit state passing on `PlsaState`;
  the fields of `PlsaState` are the instance attributes of `BasePLSA` and
  of its two subclasses merged into one record (each variant only reads
  and writes its own fields).
* the random initialisation (`numpy.random.rand`) is an injected argument,
  as the spec itself demands ("implementations must allow injecting a
  seeded random source").
* the package configures numpy to raise on every floating-point error:
  `seterr(all='raise')` runs at import (plsa/__init__.py line 21) and is
  never reset.  The one reachable division of zero by zero (`result.py`
  line 76, on a document with no in-vocabulary mass) therefore raises
  `FloatingPointError` rather than producing NaN.
* Python exceptions are modelled with `Except PyError`.
-/

/-- Python exception kinds raised (or raisable) by the modelled code. -/
inductive PyError where
  | valueError : PyError
  | typeError : PyError
  | attributeError : PyError
  | floatingPointError : PyError
deriving DecidableEq, Repr

/-- Embeds `numpy.finfo(float).eps = 2 ** (-52)`, exactly (base.py line 10). -/
def MACHINE_PRECISION : ℚ := 1 / 2 ^ 52

/-- Entry-wise clamping step `array[array < MACHINE_PRECISION] = 0.0`
(base.py line 178). -/
def clamp (x : ℚ) : ℚ := if x < MACHINE_PRECISION then 0 else x

/-- Python `int(q)` on a (rational-modelled) float: truncation toward 0. -/
def pyInt (q : ℚ) : ℤ := q.num.tdiv q.den

/-- Embeds `BasePLSA.__normalize` (base.py lines 176-181): clamp entries below
machine epsilon to zero, sum along axis 0, replace zero divisors by 1,
divide, and return both the normalized array and the divisor.  The Python
version mutates its argument in place; the model is functional. -/
def normalizeArr {n : ℕ} {β : Type} [Fintype β] (a : Fin n → β → ℚ) :
    (Fin n → β → ℚ) × (β → ℚ) :=
  (fun i j =>
      clamp (a i j) /
        (if (∑ k, clamp (a k j)) = 0 then 1 else ∑ k, clamp (a k j)),
   fun j => if (∑ k, clamp (a k j)) = 0 then 1 else ∑ k, clamp (a k j))

/-- Embeds `__normalize` applied to a 3-D array along the topic axis, with the
remaining `(doc, word)` axes curried. -/
def normalizeArr3 {T D W : ℕ} (a : Fin T → Fin D → Fin W → ℚ) :
    (Fin T → Fin D → Fin W → ℚ) × (Fin D → Fin W → ℚ) :=
  let p := normalizeArr (fun t (dw : Fin D × Fin W) => a t dw.1 dw.2)
  (fun t d w => p.1 t (d, w), fun d w => p.2 (d, w))

/-- The merged instance state of `BasePLSA` and its two subclasses.
`doc_word` is `p(d, w)` (immutable), `word` is `p(w)` (only used by
`ConditionalPLSA`), `conditional` is `q(t|d,w)`, `norm` is the marginal
returned from the expectation step, and `negative_entropy` is the
precomputed constant from `BasePLSA.__negative_entropy`. -/
structure PlsaState (T D W : ℕ) where
  doc_word : Fin D → Fin W → ℚ
  word : Fin W → ℚ
  conditional : Fin T → Fin D → Fin W → ℚ
  norm : Fin D → Fin W → ℚ
  doc_given_topic : Fin D → Fin T → ℚ
  word_given_topic : Fin W → Fin T → ℚ
  topic_given_word : Fin T → Fin W → ℚ
  topic : Fin T → ℚ
  joint : Fin T → Fin D → Fin W → ℚ
  kl_divergences : List ℚ
  negative_entropy : ℚ
  tf_idf : Bool

/-- Embeds `einsum('dw,tdw->dt', doc_word, conditional)` (the un-normalized
argument of `_norm_sum` for the doc-given-topic factor). -/
def probDT {T D W : ℕ} (s : PlsaState T D W) : Fin D → Fin T → ℚ :=
  fun d t => ∑ w, s.doc_word d w * s.conditional t d w

/-- Embeds `einsum('dw,tdw->wt', doc_word, conditional)`. -/
def probWT {T D W : ℕ} (s : PlsaState T D W) : Fin W → Fin T → ℚ :=
  fun w t => ∑ d, s.doc_word d w * s.conditional t d w

/-- Embeds `einsum('dw,tdw->tw', doc_word, conditional)`. -/
def probTW {T D W : ℕ} (s : PlsaState T D W) : Fin T → Fin W → ℚ :=
  fun t w => ∑ d, s.doc_word d w * s.conditional t d w

/-- Embeds `PLSA._m_step` (plsa.py lines 56-64): update the two conditional
factors and the topic weights, then rebuild the joint tensor as
`einsum('dt,wt,t->tdw', ...)`. -/
def mStepA {T D W : ℕ} (s : PlsaState T D W) : PlsaState T D W :=
  let dgt := (normalizeArr (probDT s)).1
  let wgt := (normalizeArr (probWT s)).1
  let topic : Fin T → ℚ :=
    fun t => ∑ d, ∑ w, s.doc_word d w * s.conditional t d w
  { s with
      doc_given_topic := dgt
      word_given_topic := wgt
      topic := topic
      joint := fun t d w => dgt d t * wgt w t * topic t }

/-- Embeds `ConditionalPLSA._m_step` (conditional_plsa.py lines 64-71): update
the two conditional factors, rebuild the joint as
`einsum('dt,tw,w->tdw', ...)`, and derive the topic weights by summing
the joint.  Note: the joint tensor is NOT renormalized here. -/
def mStepB {T D W : ℕ} (s : PlsaState T D W) : PlsaState T D W :=
  let dgt := (normalizeArr (probDT s)).1
  let tgw := (normalizeArr (probTW s)).1
  let joint : Fin T → Fin D → Fin W → ℚ :=
    fun t d w => dgt d t * tgw t w * s.word w
  { s with
      doc_given_topic := dgt
      topic_given_word := tgw
      joint := joint
      topic := fun t => ∑ d, ∑ w, joint t d w }

/-- Embeds `BasePLSA.__e_step` (base.py lines 156-164): normalize the joint
tensor over the topic axis; the divisor is the document-word marginal. -/
def eStep {T D W : ℕ} (s : PlsaState T D W) : PlsaState T D W :=
  let p := normalizeArr3 s.joint
  { s with conditional := p.1, norm := p.2 }

/-- The two concrete PLSA flavours of the repository; `BasePLSA._m_step`
is abstract and dispatched by subclass. -/
inductive Variant where
  | plsa : Variant
  | conditional : Variant
deriving DecidableEq, Repr

/-- Dispatch of the abstract `_m_step` to the concrete variant. -/
def mStepOf {T D W : ℕ} (v : Variant) : PlsaState T D W → PlsaState T D W :=
  match v with
  | .plsa => mStepA
  | .conditional => mStepB

/-- Embeds `BasePLSA._invert` (base.py lines 190-193): Bayesian inversion
`conditional * marginal`, transposed, then normalized over axis 0. -/
def invert {a b : ℕ} (conditional : Fin a → Fin b → ℚ) (marginal : Fin b → ℚ) :
    Fin b → Fin a → ℚ :=
  (normalizeArr (fun j i => conditional i j * marginal j)).1

/-- Embeds `(self._doc_word * log(self.__norm)).sum()` (base.py line 103). -/
def likelihood {T D W : ℕ} (log : ℚ → ℚ) (s : PlsaState T D W) : ℚ :=
  ∑ d, ∑ w, s.doc_word d w * log (s.norm d w)

/-- Embeds `BasePLSA.__rel_change` compared against `eps` (base.py lines 183-188
and 106): on an empty history the relative change is infinite, hence never
below the (finite, non-negative) `eps`.  (In ℚ, `x / 0 = 0`, so with a zero
divergence the test compares `|0| < eps`; the float code under the
package's raise-everything numpy error state would instead raise on a
division by an exactly zero divergence.  Real runs have positive
divergences, and the claims settled here do not depend on that corner:
they only exercise `eps = 0`, where the test is false for every value.) -/
def relStop (hist : List ℚ) (new eps : ℚ) : Bool :=
  match hist.getLast? with
  | some old => decide (|(new - old) / new| < eps)
  | none => false

/-- One turn of the `while` body of `BasePLSA.fit` (base.py lines
101-104): maximization step, expectation step, new KL divergence. -/
def fitStep {T D W : ℕ} (v : Variant) (log : ℚ → ℚ) (s : PlsaState T D W) :
    PlsaState T D W × ℚ :=
  let s1 := eStep (mStepOf v s)
  (s1, s1.negative_entropy - likelihood log s1)

/-- The `while n_iter < max_iter + warmup` loop of `BasePLSA.fit`
(base.py lines 99-108), with the remaining iteration count as fuel.
On early stop the loop returns without appending the new divergence. -/
def fitLoop {T D W : ℕ} (v : Variant) (log : ℚ → ℚ) (eps : ℚ) (warmup : ℕ) :
    ℕ → ℕ → PlsaState T D W → PlsaState T D W
  | _, 0, s => s
  | nIter, fuel + 1, s =>
    let p := fitStep v log s
    let nIter1 := nIter + 1
    if decide (warmup < nIter1) && relStop p.1.kl_divergences p.2 eps then p.1
    else
      fitLoop v log eps warmup nIter1 fuel
        { p.1 with kl_divergences := p.1.kl_divergences ++ [p.2] }

/-- Embeds `BasePLSA.fit` (base.py lines 56-109).  The entry coercions are
`eps = abs(float(eps))`, `max_iter = abs(int(max_iter))`,
`warmup = abs(int(warmup))` (lines 96-98). -/
def fit {T D W : ℕ} (v : Variant) (log : ℚ → ℚ)
    (eps maxIter warmup : ℚ) (s : PlsaState T D W) : PlsaState T D W :=
  let e := |eps|
  let mi := (pyInt maxIter).natAbs
  let wu := (pyInt warmup).natAbs
  fitLoop v log e wu 0 (mi + wu) s

/-- Embeds `BasePLSA.__validated` (base.py lines 201-211): coerce to
`abs(int(n_topics))` and raise `ValueError` when fewer than 2 topics are
requested or the corpus is not strictly larger than the topic count. -/
def validated (nTopics : ℚ) (nDocs nWords : ℕ) : Except PyError ℕ :=
  let n := (pyInt nTopics).natAbs
  if n < 2 then .error .valueError
  else if nDocs ≤ n ∨ nWords ≤ n then .error .valueError
  else .ok n

/-- Embeds `BasePLSA.__negative_entropy` (base.py lines 195-199): entries not
above machine epsilon are replaced by 1 before `(p * log(p)).sum()`. -/
def negativeEntropy {D W : ℕ} (log : ℚ → ℚ) (dw : Fin D → Fin W → ℚ) : ℚ :=
  ∑ d, ∑ w,
    (if dw d w ≤ MACHINE_PRECISION then 1 else dw d w) *
      log (if dw d w ≤ MACHINE_PRECISION then 1 else dw d w)

/-- The state assembled by `BasePLSA.__init__` (base.py lines 21-33)
after successful validation: the conditional tensor is the injected
random array normalized over the topic axis (`BasePLSA.__random`), and
the arrays numpy merely allocates with `empty` are modelled as zero
(they are overwritten by the first maximization/expectation step). -/
def initState {D W : ℕ} (log : ℚ → ℚ) (n : ℕ) (dw : Fin D → Fin W → ℚ)
    (word : Fin W → ℚ) (rand : (T : ℕ) → Fin T → Fin D → Fin W → ℚ)
    (tfidf : Bool) : PlsaState n D W :=
  { doc_word := dw
    word := word
    conditional := (normalizeArr3 (rand n)).1
    norm := fun _ _ => 0
    doc_given_topic := fun _ _ => 0
    word_given_topic := fun _ _ => 0
    topic_given_word := fun _ _ => 0
    topic := fun _ => 0
    joint := fun _ _ _ => 0
    kl_divergences := []
    negative_entropy := negativeEntropy log dw
    tf_idf := tfidf }

/-- Construction of a `PLSA` engine (plsa.py lines 52-54): validation,
then state assembly; the extra allocation on line 54 uses the already
coerced `self.n_topics`, so no further error can occur. -/
def mkEngineA {D W : ℕ} (log : ℚ → ℚ) (q : ℚ) (dw : Fin D → Fin W → ℚ)
    (word : Fin W → ℚ) (rand : (T : ℕ) → Fin T → Fin D → Fin W → ℚ)
    (tfidf : Bool) : Except PyError ((T : ℕ) × PlsaState T D W) :=
  match validated q D W with
  | .error e => .error e
  | .ok n => .ok ⟨n, initState log n dw word rand tfidf⟩

/-- Construction of a `ConditionalPLSA` engine (conditional_plsa.py lines
59-62): after the base construction, line 61 evaluates
`empty((n_topics, corpus.n_words))` with the RAW constructor argument.
numpy rejects a non-integral dimension with `TypeError` and a negative
one with `ValueError` ("negative dimensions are not allowed"). -/
def mkEngineB {D W : ℕ} (log : ℚ → ℚ) (q : ℚ) (dw : Fin D → Fin W → ℚ)
    (word : Fin W → ℚ) (rand : (T : ℕ) → Fin T → Fin D → Fin W → ℚ)
    (tfidf : Bool) : Except PyError ((T : ℕ) × PlsaState T D W) :=
  match validated q D W with
  | .error e => .error e
  | .ok n =>
    if q.den ≠ 1 then .error .typeError
    else if q.num < 0 then .error .valueError
    else .ok ⟨n, initState log n dw word rand tfidf⟩

/-- The sort order used by `PlsaResult.__sorted` (result.py lines 84-87):
`(-array).argsort(axis=0)` orders indices by descending value.  Ties are
modelled as broken by original index (a stable sort); numpy's default
quicksort may break ties differently, but every property stated below is
insensitive to the choice among descending orders. -/
def sortRel {n : ℕ} (v : Fin n → ℚ) (i j : Fin n) : Prop :=
  v j < v i ∨ (v i = v j ∧ i ≤ j)

instance sortRelDecidable {n : ℕ} (v : Fin n → ℚ) : DecidableRel (sortRel v) :=
  fun i j => inferInstanceAs (Decidable (v j < v i ∨ (v i = v j ∧ i ≤ j)))

instance sortRelIsTotal {n : ℕ} (v : Fin n → ℚ) : IsTotal (Fin n) (sortRel v) := by
  constructor
  intro i j
  rcases lt_trichotomy (v i) (v j) with h | h | h
  · exact Or.inr (Or.inl h)
  · rcases le_total i j with hij | hij
    · exact Or.inl (Or.inr ⟨h, hij⟩)
    · exact Or.inr (Or.inr ⟨h.symm, hij⟩)
  · exact Or.inl (Or.inl h)

instance sortRelIsTrans {n : ℕ} (v : Fin n → ℚ) : IsTrans (Fin n) (sortRel v) := by
  constructor
  rintro i j k (h1 | ⟨h1, h1i⟩) (h2 | ⟨h2, h2i⟩)
  · exact Or.inl (h2.trans h1)
  · exact Or.inl (h2 ▸ h1)
  · exact Or.inl (by rw [h1]; exact h2)
  · exact Or.inr ⟨h1.trans h2, h1i.trans h2i⟩

/-- The list of indices of `v` in descending value order (the argsort). -/
def argsortList {n : ℕ} (v : Fin n → ℚ) : List (Fin n) :=
  (List.finRange n).insertionSort (sortRel v)

theorem argsortList_length {n : ℕ} (v : Fin n → ℚ) :
    (argsortList v).length = n := by
  rw [argsortList, (List.perm_insertionSort (sortRel v) (List.finRange n)).length_eq,
    List.length_finRange]

/-- The descending argsort as an index map `Fin n → Fin n`. -/
def argsortDesc {n : ℕ} (v : Fin n → ℚ) : Fin n → Fin n :=
  fun k => (argsortList v).get (Fin.cast (argsortList_length v).symm k)

/-- The corpus context retained by a `PlsaResult` (result.py keeps a
reference to the `Corpus`; `predict` only consults the vocabulary, the
word index and the idf vector).  The preprocessing pipeline itself is an
external collaborator: `predict` is modelled on already processed token
lists. -/
structure CorpusRef (W : ℕ) where
  vocabulary : Fin W → String
  index : String → Option (Fin W)
  idf : Fin W → ℚ

/-- The attributes stored by `PlsaResult.__init__` (result.py lines
10-29), after topic reordering.  `word_given_topic` is the per-topic
tuple of `(word string, probability)` pairs. -/
structure PlsaResult (T D W : ℕ) where
  topic : Fin T → ℚ
  topic_given_doc : Fin T → Fin D → ℚ
  topic_given_word : Fin T → Fin W → ℚ
  word_given_topic : Fin T → List (String × ℚ)
  kl_divergences : List ℚ
  corpus : CorpusRef W
  tf_idf : Bool

/-- The per-topic word list assembled by `PlsaResult.__init__` lines
25-29: for each (already permuted) topic column, sort the words by
descending probability (`__sorted` along axis 0) and replace each word
index by its vocabulary string (`__zipped`/`__tuples`). -/
def wordTopicTuples {T W : ℕ} (corpus : CorpusRef W)
    (wgtP : Fin W → Fin T → ℚ) (k : Fin T) : List (String × ℚ) :=
  (List.finRange W).map
    (fun j => (corpus.vocabulary (argsortDesc (fun w => wgtP w k) j),
               wgtP (argsortDesc (fun w => wgtP w k) j) k))

/-- Embeds `PlsaResult.__init__` (result.py lines 10-29): order topics by
descending weight, permute `topic_given_doc`, `topic_given_word` and the
columns of `word_given_topic` by the same permutation, then sort each
topic's word distribution descending and pair the probabilities with the
vocabulary strings of their word indices. -/
def mkPlsaResult {T D W : ℕ} (topic_given_doc : Fin T → Fin D → ℚ)
    (word_given_topic : Fin W → Fin T → ℚ)
    (topic_given_word : Fin T → Fin W → ℚ) (topic : Fin T → ℚ)
    (kl_divergences : List ℚ) (corpus : CorpusRef W) (tf_idf : Bool) :
    PlsaResult T D W :=
  let topicOrder := argsortDesc topic
  let wgtP : Fin W → Fin T → ℚ := fun w k => word_given_topic w (topicOrder k)
  { topic := fun k => topic (topicOrder k)
    topic_given_doc := fun k d => topic_given_doc (topicOrder k) d
    topic_given_word := fun k w => topic_given_word (topicOrder k) w
    word_given_topic := wordTopicTuples corpus wgtP
    kl_divergences := kl_divergences
    corpus := corpus
    tf_idf := tf_idf }

/-- Embeds `PLSA._result` (plsa.py lines 66-74): the symmetric variant packages
the INVERTED factors; in particular it does store an inverse word-topic
conditional, obtained as `_invert(word_given_topic, topic)`. -/
def resultA {T D W : ℕ} (s : PlsaState T D W) (c : CorpusRef W) :
    PlsaResult T D W :=
  mkPlsaResult (invert s.doc_given_topic s.topic) s.word_given_topic
    (invert s.word_given_topic s.topic) s.topic s.kl_divergences c s.tf_idf

/-- Embeds `ConditionalPLSA._result` (conditional_plsa.py lines 73-80). -/
def resultB {T D W : ℕ} (s : PlsaState T D W) (c : CorpusRef W) :
    PlsaResult T D W :=
  mkPlsaResult (invert s.doc_given_topic s.topic)
    (invert s.topic_given_word s.word) s.topic_given_word s.topic
    s.kl_divergences c s.tf_idf

/-- Embeds `_result` dispatched by variant. -/
def resultOf {T D W : ℕ} (v : Variant) (s : PlsaState T D W)
    (c : CorpusRef W) : PlsaResult T D W :=
  match v with
  | .plsa => resultA s c
  | .conditional => resultB s c

/-- The encoding loop of `PlsaResult.predict` (result.py lines 68-73):
count each token at its vocabulary index, with slot `n_words` collecting
the out-of-vocabulary tokens, which are also accumulated in order. -/
def encodeLoop {W : ℕ} (index : String → Option (Fin W)) :
    List String → (Fin (W + 1) → ℚ) × List String →
      (Fin (W + 1) → ℚ) × List String
  | [], acc => acc
  | tk :: rest, (enc, new_words) =>
    let idx : Fin (W + 1) :=
      match index tk with
      | some w => w.castSucc
      | none => Fin.last W
    encodeLoop index rest
      (Function.update enc idx (enc idx + 1),
       if idx = Fin.last W then new_words ++ [tk] else new_words)

/-- The encoded document: counts over `n_words + 1` slots plus the list
of unknown words, starting from the zero vector. -/
def encodeDoc {W : ℕ} (index : String → Option (Fin W)) (doc : List String) :
    (Fin (W + 1) → ℚ) × List String :=
  encodeLoop index doc (fun _ => 0, [])

/-- The weighted count vector of `predict` (result.py line 75):
`encoded * idf` when `tf_idf` is set, the raw counts otherwise. -/
def PlsaResult.weightedDoc {T D W : ℕ} (r : PlsaResult T D W)
    (doc : List String) : Fin W → ℚ :=
  let encoded : Fin W → ℚ := fun w => (encodeDoc r.corpus.index doc).1 w.castSucc
  if r.tf_idf then fun w => encoded w * r.corpus.idf w else encoded

/-- Embeds `PlsaResult.predict` (result.py lines 65-78) on an already processed
token list.  The package-wide `numpy.seterr(all='raise')`
(plsa/__init__.py line 21) makes the division `encoded /= encoded.sum()`
on line 76 raise `FloatingPointError` when the sum is zero (each entry
would be the invalid operation `0.0 / 0.0`), so the call aborts there
and returns nothing.  Otherwise it returns the affinity vector
`topic_given_word.dot(encoded)`, the new-word count `int(encoded[-1])`
and the tuple of new words. -/
def PlsaResult.predict {T D W : ℕ} (r : PlsaResult T D W)
    (doc : List String) :
    Except PyError ((Fin T → ℚ) × ℤ × List String) :=
  let weighted := r.weightedDoc doc
  let s := ∑ w, weighted w
  if s = 0 then .error .floatingPointError
  else .ok (fun t => ∑ w, r.topic_given_word t w * (weighted w / s),
    pyInt ((encodeDoc r.corpus.index doc).1 (Fin.last W)),
    (encodeDoc r.corpus.index doc).2)

/-- The attribute lookup `result.kl_divergence` performed by
`BasePLSA.best_of` (base.py lines 138, 143, 145).  `PlsaResult`
(result.py) defines no attribute, property or method of that name — its
only accessors are `n_topics`, `tf_idf`, `topic`, `word_given_topic`,
`topic_given_doc`, `convergence` and `predict` — so the lookup raises
`AttributeError`, modelled as `none`. -/
def PlsaResult.kl_divergenceAttr {T D W : ℕ} (_ : PlsaResult T D W) :
    Option ℚ := none

/-- The `for _ in range(n_runs)` loop of `BasePLSA.best_of` (base.py
lines 139-145): re-randomize the conditional tensor, clear the history,
fit again, and keep the result with the smallest final divergence. -/
def bestOfLoop {T D W : ℕ} (v : Variant) (log : ℚ → ℚ)
    (rand : ℕ → Fin T → Fin D → Fin W → ℚ) (eps maxIter warmup : ℚ)
    (c : CorpusRef W) :
    ℕ → ℕ → PlsaResult T D W × ℚ → PlsaState T D W →
      Except PyError (PlsaResult T D W)
  | 0, _, best, _ => .ok best.1
  | runs + 1, i, best, s =>
    let s1 := fit v log eps maxIter warmup
      { s with conditional := (normalizeArr3 (rand i)).1, kl_divergences := [] }
    let result := resultOf v s1 c
    match result.kl_divergenceAttr with
    | none => .error .attributeError
    | some kl =>
      if kl < best.2 then bestOfLoop v log rand eps maxIter warmup c runs (i + 1) (result, kl) s1
      else bestOfLoop v log rand eps maxIter warmup c runs (i + 1) best s1

/-- Embeds `BasePLSA.best_of` (base.py lines 111-146): one baseline fit, then
`abs(int(n_runs))` further fits on re-randomized state; the final
divergence of each run is read off the attribute `kl_divergence` of the
packaged result. -/
def bestOf {T D W : ℕ} (v : Variant) (log : ℚ → ℚ)
    (rand : ℕ → Fin T → Fin D → Fin W → ℚ) (nRuns eps maxIter warmup : ℚ)
    (s : PlsaState T D W) (c : CorpusRef W) :
    Except PyError (PlsaResult T D W) :=
  let n := (pyInt nRuns).natAbs
  let s1 := fit v log eps maxIter warmup s
  let best := resultOf v s1 c
  match best.kl_divergenceAttr with
  | none => .error .attributeError
  | some minKl => bestOfLoop v log rand eps maxIter warmup c n 0 (best, minKl) s1

/-! ## Helper lemmas about the numeric utilities -/

theorem pyInt_intCast (n : ℤ) : pyInt (n : ℚ) = n := by
  simp [pyInt]

theorem pyInt_natCast (n : ℕ) : pyInt (n : ℚ) = n := by
  simpa using pyInt_intCast (n : ℤ)

theorem clamp_nonneg (x : ℚ) : 0 ≤ clamp x := by
  unfold clamp
  split
  · exact le_refl 0
  · next h =>
      exact le_trans
        (show (0 : ℚ) ≤ MACHINE_PRECISION by norm_num [MACHINE_PRECISION])
        (not_lt.mp h)

/-- Each column of the normalized array sums to 1 when the clamped column
mass is nonzero, and to 0 when the whole clamped column is zero. -/
theorem normalizeArr_col_sum {n : ℕ} {β : Type} [Fintype β]
    (a : Fin n → β → ℚ) (j : β) :
    (∑ i, (normalizeArr a).1 i j) =
      if (∑ i, clamp (a i j)) = 0 then 0 else 1 := by
  by_cases h : (∑ i, clamp (a i j)) = 0
  · rw [if_pos h]
    unfold normalizeArr
    dsimp only
    rw [← Finset.sum_div, h]
    simp
  · rw [if_neg h]
    unfold normalizeArr
    dsimp only
    rw [← Finset.sum_div, if_neg h, div_self h]

/-- The divisor returned by the normalization utility is strictly
positive: a zero column sum has been replaced by 1, and a nonzero one is
a nonempty sum of non-negative clamped entries. -/
theorem normalizeArr_divisor_pos {n : ℕ} {β : Type} [Fintype β]
    (a : Fin n → β → ℚ) (j : β) : 0 < (normalizeArr a).2 j := by
  unfold normalizeArr
  dsimp only
  split
  · norm_num
  · rcases lt_or_eq_of_le (Finset.sum_nonneg fun i _ => clamp_nonneg (a i j)) with h | h
    · exact h
    · exact absurd h.symm (by assumption)

theorem normalizeArr_entry_nonneg {n : ℕ} {β : Type} [Fintype β]
    (a : Fin n → β → ℚ) (i : Fin n) (j : β) :
    0 ≤ (normalizeArr a).1 i j := by
  have hpos := normalizeArr_divisor_pos a j
  unfold normalizeArr at hpos ⊢
  exact div_nonneg (clamp_nonneg (a i j)) (le_of_lt hpos)

theorem normalizeArr_entry_le_one {n : ℕ} {β : Type} [Fintype β]
    (a : Fin n → β → ℚ) (i : Fin n) (j : β) :
    (normalizeArr a).1 i j ≤ 1 := by
  have hpos := normalizeArr_divisor_pos a j
  unfold normalizeArr at hpos ⊢
  dsimp only at hpos ⊢
  rw [div_le_one hpos]
  split
  · have h0 : (∑ k, clamp (a k j)) = 0 := by assumption
    have := Finset.single_le_sum (f := fun k => clamp (a k j))
      (fun k _ => clamp_nonneg (a k j)) (Finset.mem_univ i)
    rw [h0] at this
    exact le_trans this (by norm_num)
  · exact Finset.single_le_sum (f := fun k => clamp (a k j))
      (fun k _ => clamp_nonneg (a k j)) (Finset.mem_univ i)

/-- Total mass of the joint tensor rebuilt by `ConditionalPLSA._m_step`,
given properly normalized factors and word marginal. -/
theorem sum_jointB {T D W : ℕ} (dgt : Fin D → Fin T → ℚ)
    (tgw : Fin T → Fin W → ℚ) (word : Fin W → ℚ)
    (h1 : ∀ t, ∑ d, dgt d t = 1) (h2 : ∀ w, ∑ t, tgw t w = 1)
    (h3 : ∑ w, word w = 1) :
    (∑ t, ∑ d, ∑ w, dgt d t * tgw t w * word w) = 1 := by
  calc ∑ t, ∑ d, ∑ w, dgt d t * tgw t w * word w
      = ∑ t, ∑ d, ∑ w, dgt d t * (tgw t w * word w) := by
        simp_rw [mul_assoc]
    _ = ∑ t, (∑ d, dgt d t) * (∑ w, tgw t w * word w) := by
        simp_rw [Finset.sum_mul_sum]
    _ = ∑ t, ∑ w, tgw t w * word w := by simp_rw [h1, one_mul]
    _ = ∑ w, (∑ t, tgw t w) * word w := by
        rw [Finset.sum_comm]
        simp_rw [Finset.sum_mul]
    _ = ∑ w, word w := by simp_rw [h2, one_mul]
    _ = 1 := h3

/-! ## Concrete instances used by witnesses and counterexamples -/

/-- A well-behaved engine state: 2 topics, 3 documents, 3 words, uniform
document-word matrix and uniform conditional tensor. -/
def uniformState : PlsaState 2 3 3 :=
  { doc_word := fun _ _ => 1/9
    word := fun _ => 1/3
    conditional := fun _ _ _ => 1/2
    norm := fun _ _ => 0
    doc_given_topic := fun _ _ => 0
    word_given_topic := fun _ _ => 0
    topic_given_word := fun _ _ => 0
    topic := fun _ => 0
    joint := fun _ _ _ => 0
    kl_divergences := []
    negative_entropy := 0
    tf_idf := false }

/-- An engine state whose document-word matrix has an all-zero column
(word 0), with everything else uniform.  Such a matrix is produced by the
real corpus collaborator: with `tf_idf=True` (the default of both
variants), a word occurring in every document has
`idf = log(n_docs/n_docs) = 0` (corpus.py line 193), zeroing its column
of `get_doc_word` before engine construction. -/
def zeroColState : PlsaState 2 3 4 :=
  { doc_word := fun _ => ![0, 1/9, 1/9, 1/9]
    word := ![0, 1/3, 1/3, 1/3]
    conditional := fun _ _ _ => 1/2
    norm := fun _ _ => 0
    doc_given_topic := fun _ _ => 0
    word_given_topic := fun _ _ => 0
    topic_given_word := fun _ _ => 0
    topic := fun _ => 0
    joint := fun _ _ _ => 0
    kl_divergences := []
    negative_entropy := 0
    tf_idf := true }

/-- An engine state on which the clamping step of `__normalize` fires
asymmetrically: the products `P(d,w) * q(t|d,w)` for topic 0 live only in
word column 0, each equal to `eps/2`; summed over words (for `p(d|t)`)
they stay below machine epsilon and are clamped away, while summed over
documents (for `p(t|w)`) they reach `3*eps/2` and survive. -/
def clampAsymState : PlsaState 2 3 3 :=
  { doc_word := fun _ =>
      ![MACHINE_PRECISION, (1 - 3 * MACHINE_PRECISION) / 6,
        (1 - 3 * MACHINE_PRECISION) / 6]
    word := ![3 * MACHINE_PRECISION, (1 - 3 * MACHINE_PRECISION) / 2,
              (1 - 3 * MACHINE_PRECISION) / 2]
    conditional := ![fun _ => ![1/2, 0, 0], fun _ => ![1/2, 1, 1]]
    norm := fun _ _ => 0
    doc_given_topic := fun _ _ => 0
    word_given_topic := fun _ _ => 0
    topic_given_word := fun _ _ => 0
    topic := fun _ => 0
    joint := fun _ _ _ => 0
    kl_divergences := []
    negative_entropy := 0
    tf_idf := true }

/-- Modelled from the spec (§4.4): the spec additionally demands
"rebuild the joint tensor as the contraction of the two conditional
factors weighted by the word marginal p(w), then renormalize the whole
joint tensor to sum to 1 before using it as input to the shared
expectation step".  The renormalization step does not exist in
`ConditionalPLSA._m_step`; this definition adds it verbatim for
comparison with the code's `mStepB`. -/
def mStepBRenormSpec {T D W : ℕ} (s : PlsaState T D W) : PlsaState T D W :=
  let m := mStepB s
  { m with
      joint := fun t d w =>
        m.joint t d w / (∑ t2, ∑ d2, ∑ w2, m.joint t2 d2 w2) }

/-! ## Claim C1 -/

/-- C1, counterexample to the claim as stated.  On a document-word
matrix with an all-zero column (reachable through tf-idf weighting of a
word present in every document), a completed iteration of the
conditional variant leaves the factor column `p(t|w0)` summing to 0, not
1, and likewise the conditional tensor slice at `(d, w0)`:
`__normalize` maps an all-zero slice to an all-zero slice. -/
theorem c1_counterexample :
    (∑ t, (mStepB zeroColState).topic_given_word t 0) = 0
    ∧ (∑ t, (eStep (mStepB zeroColState)).conditional t 0 0) = 0
    ∧ (0 : ℚ) ≠ 1 := by
  refine ⟨?_, ?_, by norm_num⟩
  · norm_num [mStepB, zeroColState, probTW, probDT, normalizeArr, clamp,
      MACHINE_PRECISION, Fin.sum_univ_succ,
      Matrix.cons_val_zero, Matrix.cons_val_succ]
  · norm_num [eStep, normalizeArr3, mStepB, zeroColState, probTW, probDT,
      normalizeArr, clamp, MACHINE_PRECISION, Fin.sum_univ_succ,
      Matrix.cons_val_zero, Matrix.cons_val_succ]

/-- C1, amended: at the end of a completed EM iteration every
probability array sums to 1 along its defining axis EXCEPT that a slice
whose un-normalized accumulator column is entirely clamped to zero sums
to 0 instead of 1 (the all-zero-maps-to-zero policy of `__normalize`);
the topic-weight vector sums come out exactly 1 given the invariants of
the previous iteration (conditional slices summing to 1 for variant A,
normalized factor columns and word marginal for variant B). -/
theorem c1_normalization_amended {T D W : ℕ} (s : PlsaState T D W)
    (hdw : ∑ d, ∑ w, s.doc_word d w = 1)
    (hq : ∀ d w, ∑ t, s.conditional t d w = 1)
    (hw : ∑ w, s.word w = 1) :
    (∀ t, (∑ d, clamp (probDT s d t)) ≠ 0 →
      (∑ d, (mStepA s).doc_given_topic d t) = 1)
    ∧ (∀ t, (∑ w, clamp (probWT s w t)) ≠ 0 →
      (∑ w, (mStepA s).word_given_topic w t) = 1)
    ∧ (∑ t, (mStepA s).topic t) = 1
    ∧ (∀ d w, (∑ t, clamp ((mStepA s).joint t d w)) ≠ 0 →
      (∑ t, (eStep (mStepA s)).conditional t d w) = 1)
    ∧ (∀ t, (∑ d, clamp (probDT s d t)) ≠ 0 →
      (∑ d, (mStepB s).doc_given_topic d t) = 1)
    ∧ (∀ w, (∑ t, clamp (probTW s t w)) ≠ 0 →
      (∑ t, (mStepB s).topic_given_word t w) = 1)
    ∧ ((∀ t, (∑ d, (mStepB s).doc_given_topic d t) = 1) →
       (∀ w, (∑ t, (mStepB s).topic_given_word t w) = 1) →
      (∑ t, (mStepB s).topic t) = 1)
    ∧ (∀ d w, (∑ t, clamp ((mStepB s).joint t d w)) ≠ 0 →
      (∑ t, (eStep (mStepB s)).conditional t d w) = 1) := by
  refine ⟨?_, ?_, ?_, ?_, ?_, ?_, ?_, ?_⟩
  · intro t ht
    have := normalizeArr_col_sum (probDT s) t
    rw [if_neg ht] at this
    exact this
  · intro t ht
    have := normalizeArr_col_sum (probWT s) t
    rw [if_neg ht] at this
    exact this
  · show (∑ t, ∑ d, ∑ w, s.doc_word d w * s.conditional t d w) = 1
    calc ∑ t, ∑ d, ∑ w, s.doc_word d w * s.conditional t d w
        = ∑ d, ∑ t, ∑ w, s.doc_word d w * s.conditional t d w :=
          Finset.sum_comm
      _ = ∑ d, ∑ w, ∑ t, s.doc_word d w * s.conditional t d w :=
          Finset.sum_congr rfl fun d _ => Finset.sum_comm
      _ = ∑ d, ∑ w, s.doc_word d w * ∑ t, s.conditional t d w := by
          simp_rw [Finset.mul_sum]
      _ = ∑ d, ∑ w, s.doc_word d w := by simp_rw [hq, mul_one]
      _ = 1 := hdw
  · intro d w ht
    have := normalizeArr_col_sum
      (fun t (p : Fin D × Fin W) => (mStepA s).joint t p.1 p.2) (d, w)
    rw [if_neg ht] at this
    exact this
  · intro t ht
    have := normalizeArr_col_sum (probDT s) t
    rw [if_neg ht] at this
    exact this
  · intro w hw2
    have := normalizeArr_col_sum (probTW s) w
    rw [if_neg hw2] at this
    exact this
  · intro h1 h2
    exact sum_jointB _ _ _ h1 h2 hw
  · intro d w ht
    have := normalizeArr_col_sum
      (fun t (p : Fin D × Fin W) => (mStepB s).joint t p.1 p.2) (d, w)
    rw [if_neg ht] at this
    exact this

/-- C1, witness: both maximization steps and the shared expectation step
on a concrete well-behaved state, with all hypotheses discharged. -/
theorem c1_witness :
    (∑ t, (mStepA uniformState).topic t) = 1
    ∧ (∑ d, (mStepA uniformState).doc_given_topic d 0) = 1
    ∧ (∑ t, (mStepB uniformState).topic t) = 1
    ∧ (∑ t, (eStep (mStepA uniformState)).conditional t 0 0) = 1 := by
  have h := c1_normalization_amended uniformState
    (by norm_num [uniformState, Fin.sum_univ_succ])
    (by intro d w; norm_num [uniformState, Fin.sum_univ_succ])
    (by norm_num [uniformState, Fin.sum_univ_succ])
  refine ⟨h.2.2.1, ?_, ?_, ?_⟩
  · exact h.1 0 (by norm_num [uniformState, probDT, clamp,
      MACHINE_PRECISION, Fin.sum_univ_succ])
  · exact h.2.2.2.2.2.2.1
      (fun t => h.2.2.2.2.1 t (by norm_num [uniformState, probDT, clamp,
        MACHINE_PRECISION, Fin.sum_univ_succ]))
      (fun w => h.2.2.2.2.2.1 w (by norm_num [uniformState, probTW, clamp,
        MACHINE_PRECISION, Fin.sum_univ_succ]))
  · exact h.2.2.2.1 0 0 (by norm_num [uniformState, mStepA, probDT,
      probWT, normalizeArr, clamp, MACHINE_PRECISION, Fin.sum_univ_succ])

/-! ## Claim C5 -/

/-- C5, counterexample to the claim as stated.  On `clampAsymState` the
asymmetric clamping zeroes the whole `p(d|t=0)` column while `p(t=0|w=0)`
survives, so the joint tensor rebuilt by `ConditionalPLSA._m_step` has
total mass `1 - (3/2) * eps ≠ 1`: no renormalization of the joint to
total mass 1 takes place, and the expectation step consumes the
un-renormalized tensor directly (last conjunct, definitional), unlike
the spec-modelled `mStepBRenormSpec`, whose joint does total 1 here. -/
theorem c5_counterexample :
    (∑ t, ∑ d, ∑ w, (mStepB clampAsymState).joint t d w) =
      1 - 3 / 2 * MACHINE_PRECISION
    ∧ (1 - 3 / 2 * MACHINE_PRECISION : ℚ) ≠ 1
    ∧ (∑ t, ∑ d, ∑ w, (mStepBRenormSpec clampAsymState).joint t d w) = 1
    ∧ (eStep (mStepB clampAsymState)).conditional =
        (normalizeArr3 (mStepB clampAsymState).joint).1 := by
  refine ⟨?_, by norm_num [MACHINE_PRECISION], ?_, rfl⟩
  · norm_num [mStepB, clampAsymState, probDT, probTW, normalizeArr, clamp,
      MACHINE_PRECISION, Fin.sum_univ_succ,
      Matrix.cons_val_zero, Matrix.cons_val_succ]
  · norm_num [mStepBRenormSpec, mStepB, clampAsymState, probDT, probTW,
      normalizeArr, clamp, MACHINE_PRECISION, Fin.sum_univ_succ,
      Matrix.cons_val_zero, Matrix.cons_val_succ]

/-- C5, amended: the conditional variant rebuilds the joint tensor as
the contraction of `p(d|t)` and `p(t|w)` weighted by the word marginal
`p(w)` (definitional first conjunct) and performs NO explicit
renormalization; instead, whenever the factor columns produced by the
maximization step are properly normalized and the word marginal sums
to 1, the joint automatically has total mass 1, and the shared
expectation step consumes it as is. -/
theorem c5_joint_amended {T D W : ℕ} (s : PlsaState T D W)
    (h1 : ∀ t, (∑ d, (mStepB s).doc_given_topic d t) = 1)
    (h2 : ∀ w, (∑ t, (mStepB s).topic_given_word t w) = 1)
    (h3 : ∑ w, s.word w = 1) :
    ((mStepB s).joint = fun t d w =>
        (mStepB s).doc_given_topic d t * (mStepB s).topic_given_word t w
          * s.word w)
    ∧ (∑ t, ∑ d, ∑ w, (mStepB s).joint t d w) = 1
    ∧ (eStep (mStepB s)).conditional =
        (normalizeArr3 (mStepB s).joint).1 := by
  refine ⟨rfl, ?_, rfl⟩
  exact sum_jointB _ _ _ h1 h2 h3

/-- C5, witness: the amended statement instantiated on the concrete
well-behaved state, with the normalization hypotheses discharged. -/
theorem c5_witness :
    (∑ t, ∑ d, ∑ w, (mStepB uniformState).joint t d w) = 1 := by
  have h := c5_joint_amended uniformState
    (fun t => by norm_num [uniformState, mStepB, probDT, normalizeArr,
      clamp, MACHINE_PRECISION, Fin.sum_univ_succ])
    (fun w => by norm_num [uniformState, mStepB, probDT, probTW,
      normalizeArr, clamp, MACHINE_PRECISION, Fin.sum_univ_succ])
    (by norm_num [uniformState, Fin.sum_univ_succ])
  exact h.2.1

/-! ## Claims C2 and C10 -/

/-- Shared helper: `best_of` always fails with `AttributeError`, because
the attribute lookup `best.kl_divergence` on the freshly packaged result
(base.py line 138) finds nothing (result.py defines no such name). -/
theorem bestOf_attr_error {T D W : ℕ} (v : Variant) (log : ℚ → ℚ)
    (rand : ℕ → Fin T → Fin D → Fin W → ℚ) (nRuns eps maxIter warmup : ℚ)
    (s : PlsaState T D W) (c : CorpusRef W) :
    bestOf v log rand nRuns eps maxIter warmup s c =
      .error .attributeError := rfl

/-- C2, counterexample to the claim as stated: with `n_topics = -3` on a
10-document, 10-word corpus, the claimed raise condition `n_topics < 2`
holds, yet `__validated` coerces through `abs(int(n_topics))` first and
accepts the configuration as 3 topics. -/
theorem c2_counterexample :
    validated (-3) 10 10 = .ok 3 ∧ ((-3 : ℚ) < 2) := by
  constructor
  · have hp : pyInt (-3 : ℚ) = -3 := by simpa using pyInt_intCast (-3)
    simp [validated, hp]
  · norm_num

/-- C2, amended: construction raises `ValueError` exactly when
`abs(int(n_topics)) < 2` or the corpus's document or word count is not
strictly greater than `abs(int(n_topics))`; the raised error is always
this configuration `ValueError` (the validator raises nothing else); in
particular `n_topics = 1` always raises, and `n_topics = 5` on a
4-document corpus raises.  (The conditional variant's constructor can
additionally raise on a negative or non-integral raw `n_topics` via its
tensor allocation, see C10.) -/
theorem c2_validation_amended (q : ℚ) (d w : ℕ) :
    ((validated q d w).isOk = true ↔
      ¬((pyInt q).natAbs < 2 ∨ d ≤ (pyInt q).natAbs ∨ w ≤ (pyInt q).natAbs))
    ∧ (∀ e, validated q d w = .error e → e = PyError.valueError)
    ∧ validated 1 d w = .error .valueError
    ∧ validated 5 4 w = .error .valueError := by
  refine ⟨?_, ?_, ?_, ?_⟩
  · unfold validated
    by_cases h1 : (pyInt q).natAbs < 2
    · simp [h1, Except.isOk, Except.toBool]
    · by_cases h2 : d ≤ (pyInt q).natAbs ∨ w ≤ (pyInt q).natAbs
      · simp [h1, h2, Except.isOk, Except.toBool]
      · simp [h1, h2, Except.isOk, Except.toBool]
  · intro e he
    have he2 : (if (pyInt q).natAbs < 2
          then (Except.error PyError.valueError : Except PyError ℕ)
        else if d ≤ (pyInt q).natAbs ∨ w ≤ (pyInt q).natAbs
          then Except.error PyError.valueError
        else Except.ok (pyInt q).natAbs) = Except.error e := he
    split_ifs at he2
    · exact (Except.error.inj he2).symm
    · exact (Except.error.inj he2).symm
  · have hp : pyInt (1 : ℚ) = 1 := by simpa using pyInt_natCast 1
    simp [validated, hp]
  · have hp : pyInt (5 : ℚ) = 5 := by simpa using pyInt_natCast 5
    simp [validated, hp]

/-- C2, witness: a valid and an invalid concrete configuration, both
settled through the amended theorem. -/
theorem c2_witness :
    (validated 3 10 10).isOk = true
    ∧ validated 1 10 10 = .error .valueError := by
  refine ⟨(c2_validation_amended 3 10 10).1.mpr ?_, (c2_validation_amended 1 10 10).2.2.1⟩
  have hp : pyInt (3 : ℚ) = 3 := by simpa using pyInt_natCast 3
  rw [hp]
  norm_num

/-! ## Claim C10 -/

/-- C10, counterexample to the claim as stated: `n_topics = -3` on a
10-document, 10-word corpus has `abs(int(n_topics)) = 3`, a valid topic
count (second conjunct), yet constructing the conditional variant raises:
`ConditionalPLSA.__init__` evaluates `empty((n_topics, corpus.n_words))`
with the raw negative argument, and numpy rejects negative dimensions
with `ValueError`. -/
theorem c10_counterexample :
    mkEngineB (fun x => x) (-3) (fun _ _ => (1/100 : ℚ))
        (fun _ => (1/10 : ℚ)) (fun _ _ _ _ => 1) false =
      (Except.error PyError.valueError :
        Except PyError ((T : ℕ) × PlsaState T 10 10))
    ∧ validated (-3) 10 10 = .ok 3 := by
  have hp : pyInt (-3 : ℚ) = -3 := by simpa using pyInt_intCast (-3)
  have hc : (-3 : ℚ) = ((-3 : ℤ) : ℚ) := by norm_num
  constructor
  · have hv : validated (-3) 10 10 = .ok 3 := by simp [validated, hp]
    unfold mkEngineB
    rw [hv]
    rw [hc, Rat.den_intCast, Rat.num_intCast]
    norm_num
  · simp [validated, hp]

/-- C10, amended: the numeric parameters are silently coerced through
absolute value and integer truncation — validation and construction of
the symmetric variant are invariant under replacing `n_topics` by
`abs(int(n_topics))`, and `fit` and `best_of` are invariant under
replacing `eps`, `max_iter`, `warmup` and `n_runs` by their coerced
absolute values — EXCEPT that the conditional variant's constructor
additionally evaluates `empty((n_topics, n_words))` on the raw argument
and therefore raises `ValueError` on any negative integral `n_topics`,
even one whose absolute value is a valid topic count. -/
theorem c10_coercions_amended {D W : ℕ} :
    (∀ (q : ℚ), validated q D W = validated (((pyInt q).natAbs : ℕ) : ℚ) D W)
    ∧ (∀ (log : ℚ → ℚ) (q : ℚ) (dw : Fin D → Fin W → ℚ) (word : Fin W → ℚ)
        (rand : (T : ℕ) → Fin T → Fin D → Fin W → ℚ) (tfidf : Bool),
        mkEngineA log q dw word rand tfidf =
          mkEngineA log (((pyInt q).natAbs : ℕ) : ℚ) dw word rand tfidf)
    ∧ (∀ (T : ℕ) (v : Variant) (log : ℚ → ℚ) (eps maxIter warmup : ℚ)
        (s : PlsaState T D W),
        fit v log eps maxIter warmup s =
          fit v log |eps| (((pyInt maxIter).natAbs : ℕ) : ℚ)
            (((pyInt warmup).natAbs : ℕ) : ℚ) s)
    ∧ (∀ (T : ℕ) (v : Variant) (log : ℚ → ℚ)
        (rand : ℕ → Fin T → Fin D → Fin W → ℚ) (nRuns eps maxIter warmup : ℚ)
        (s : PlsaState T D W) (c : CorpusRef W),
        bestOf v log rand nRuns eps maxIter warmup s c =
          bestOf v log rand (((pyInt nRuns).natAbs : ℕ) : ℚ)
            eps maxIter warmup s c)
    ∧ (∀ (log : ℚ → ℚ) (q : ℚ) (dw : Fin D → Fin W → ℚ) (word : Fin W → ℚ)
        (rand : (T : ℕ) → Fin T → Fin D → Fin W → ℚ) (tfidf : Bool),
        q.den = 1 → q.num < 0 → (validated q D W).isOk = true →
        mkEngineB log q dw word rand tfidf = .error .valueError) := by
  have key : ∀ (q : ℚ), validated q D W = validated (((pyInt q).natAbs : ℕ) : ℚ) D W := by
    intro q
    have hp : pyInt (((pyInt q).natAbs : ℕ) : ℚ) = ((pyInt q).natAbs : ℤ) :=
      pyInt_natCast _
    unfold validated
    rw [hp, Int.natAbs_ofNat]
  refine ⟨key, ?_, ?_, ?_, ?_⟩
  · intro log q dw word rand tfidf
    unfold mkEngineA
    rw [← key q]
  · intro T v log eps maxIter warmup s
    unfold fit
    rw [abs_abs, pyInt_natCast, pyInt_natCast, Int.natAbs_ofNat,
      Int.natAbs_ofNat]
  · intro T v log rand nRuns eps maxIter warmup s c
    rw [bestOf_attr_error, bestOf_attr_error]
  · intro log q dw word rand tfidf hden hneg hOk
    unfold mkEngineB
    rcases hv : validated q D W with e | n
    · rw [hv] at hOk
      simp [Except.isOk, Except.toBool] at hOk
    · show (if q.den ≠ 1
            then (Except.error PyError.typeError :
              Except PyError ((T : ℕ) × PlsaState T D W))
          else if q.num < 0 then Except.error PyError.valueError
          else Except.ok ⟨n, initState log n dw word rand tfidf⟩) =
        Except.error PyError.valueError
      rw [if_neg (by rw [hden]; exact fun h => h rfl), if_pos hneg]

/-- C10, witness: the amended statement instantiated at concrete
arguments, discharging the hypotheses of the conditional-variant
conjunct with `n_topics = -3` on a 10-by-10 corpus. -/
theorem c10_witness :
    validated (-7) 10 10 = validated 7 10 10
    ∧ mkEngineB (fun x => x) (-3) (fun _ _ => (1/100 : ℚ))
        (fun _ => (1/10 : ℚ)) (fun _ _ _ _ => 1) true =
      (Except.error PyError.valueError :
        Except PyError ((T : ℕ) × PlsaState T 10 10)) := by
  constructor
  · have h := (c10_coercions_amended (D := 10) (W := 10)).1 (-7)
    have hp : pyInt (-7 : ℚ) = -7 := by simpa using pyInt_intCast (-7)
    rw [hp] at h
    norm_num at h
    exact h
  · have h := (c10_coercions_amended (D := 10) (W := 10)).2.2.2.2
      (fun x => x) (-3) (fun _ _ => (1/100 : ℚ)) (fun _ => (1/10 : ℚ))
      (fun _ _ _ _ => 1) true
    have hc : (-3 : ℚ) = ((-3 : ℤ) : ℚ) := by norm_num
    have hp : pyInt (-3 : ℚ) = -3 := by simpa using pyInt_intCast (-3)
    exact h (by rw [hc, Rat.den_intCast]) (by rw [hc, Rat.num_intCast]; norm_num)
      (by simp [validated, hp, Except.isOk, Except.toBool])

/-! ## Claim C3 -/

/-- C3: `best_of` can never return a result at all.  After the baseline
fit, base.py line 138 evaluates `best.kl_divergence`, but `PlsaResult`
(result.py) stores the history only under `convergence` and defines no
`kl_divergence` accessor, so every call of `best_of` — for every
variant, every argument list and every engine state — raises
`AttributeError` instead of performing the n_runs + 1 fits and returning
the best result, contradicting both the spec and the method's own
docstring ("Finds the best PLSA model among the specified number of
runs ... Returns PlsaResult"). -/
theorem c3_best_of_attribute_error {T D W : ℕ} (v : Variant) (log : ℚ → ℚ)
    (rand : ℕ → Fin T → Fin D → Fin W → ℚ) (nRuns eps maxIter warmup : ℚ)
    (s : PlsaState T D W) (c : CorpusRef W) :
    bestOf v log rand nRuns eps maxIter warmup s c =
      .error .attributeError :=
  bestOf_attr_error v log rand nRuns eps maxIter warmup s c

/-! ## Claim C4 -/

theorem fitStep_kl {T D W : ℕ} (v : Variant) (log : ℚ → ℚ)
    (s : PlsaState T D W) :
    ((fitStep v log s).1).kl_divergences = s.kl_divergences := by
  cases v <;> rfl

/-- Each loop turn of `fit` appends at most one divergence value. -/
theorem fitLoop_length_le {T D W : ℕ} (v : Variant) (log : ℚ → ℚ)
    (eps : ℚ) (wu : ℕ) :
    ∀ (fuel nIter : ℕ) (s : PlsaState T D W),
      ((fitLoop v log eps wu nIter fuel s).kl_divergences).length ≤
        s.kl_divergences.length + fuel := by
  intro fuel
  induction fuel with
  | zero => intro nIter s; simp [fitLoop]
  | succ n ih =>
    intro nIter s
    simp only [fitLoop]
    split
    · rw [fitStep_kl]
      exact Nat.le_add_right _ _
    · refine le_trans (ih _ _) ?_
      simp only [List.length_append, fitStep_kl, List.length_singleton]
      omega

/-- With a zero tolerance the early-stopping test can never fire. -/
theorem relStop_zero (hist : List ℚ) (new : ℚ) :
    relStop hist new 0 = false := by
  unfold relStop
  cases hist.getLast? with
  | none => rfl
  | some old =>
    simp only [decide_eq_false_iff_not, not_lt]
    exact abs_nonneg _

/-- With a zero tolerance every loop turn appends exactly one value:
the history grows by exactly the fuel, warm-up iterations included. -/
theorem fitLoop_length_eps_zero {T D W : ℕ} (v : Variant) (log : ℚ → ℚ)
    (wu : ℕ) :
    ∀ (fuel nIter : ℕ) (s : PlsaState T D W),
      ((fitLoop v log 0 wu nIter fuel s).kl_divergences).length =
        s.kl_divergences.length + fuel := by
  intro fuel
  induction fuel with
  | zero => intro nIter s; simp [fitLoop]
  | succ n ih =>
    intro nIter s
    simp only [fitLoop, relStop_zero, Bool.and_false, Bool.false_eq_true,
      if_false]
    rw [ih]
    simp only [List.length_append, fitStep_kl, List.length_singleton]
    omega

/-- C4, counterexample to the claim as stated: a fresh fit with
`eps = 0`, `max_iter = 1`, `warmup = 1` appends the divergence on the
warm-up iteration too, so the returned history has length 2 — it
exceeds `max_iter = 1`, and it is not empty although
`warmup ≥ max_iter`. -/
theorem c4_counterexample :
    ((fit Variant.plsa (fun _ => 0) 0 1 1 uniformState).kl_divergences).length = 2
    ∧ ¬(2 ≤ 1) ∧ 2 ≠ 0 := by
  refine ⟨?_, by omega, by omega⟩
  show (fitLoop Variant.plsa (fun _ => 0) |(0 : ℚ)|
      ((pyInt 1).natAbs) 0 ((pyInt 1).natAbs + (pyInt 1).natAbs)
      uniformState).kl_divergences.length = 2
  have hp : pyInt (1 : ℚ) = 1 := by simpa using pyInt_natCast 1
  rw [abs_zero, hp]
  rw [fitLoop_length_eps_zero]
  rfl

/-- C4, amended: one `fit` call grows the history by at most
`abs(int(max_iter)) + abs(int(warmup))` entries — warm-up iterations
also append — and by exactly that many when `eps = 0` (no early stop);
the history is unchanged only when `max_iter + warmup = 0`; the packaged
result of either variant stores the history unmodified.  In particular,
on a fresh engine the history length is bounded by `max_iter + warmup`,
not by `max_iter`, and it can be nonempty with `warmup ≥ max_iter`. -/
theorem c4_history_amended {T D W : ℕ} (v : Variant) (log : ℚ → ℚ)
    (eps maxIter warmup : ℚ) (s : PlsaState T D W) (c : CorpusRef W) :
    ((fit v log eps maxIter warmup s).kl_divergences).length ≤
      s.kl_divergences.length + (pyInt maxIter).natAbs + (pyInt warmup).natAbs
    ∧ (eps = 0 →
        ((fit v log eps maxIter warmup s).kl_divergences).length =
          s.kl_divergences.length + (pyInt maxIter).natAbs
            + (pyInt warmup).natAbs)
    ∧ ((pyInt maxIter).natAbs + (pyInt warmup).natAbs = 0 →
        (fit v log eps maxIter warmup s).kl_divergences = s.kl_divergences)
    ∧ (resultOf v (fit v log eps maxIter warmup s) c).kl_divergences =
        (fit v log eps maxIter warmup s).kl_divergences := by
  have hfit : fit v log eps maxIter warmup s =
      fitLoop v log |eps| (pyInt warmup).natAbs 0
        ((pyInt maxIter).natAbs + (pyInt warmup).natAbs) s := rfl
  refine ⟨?_, ?_, ?_, ?_⟩
  · have h := fitLoop_length_le v log |eps| (pyInt warmup).natAbs
      ((pyInt maxIter).natAbs + (pyInt warmup).natAbs) 0 s
    rw [hfit]
    omega
  · intro he
    subst he
    have h := fitLoop_length_eps_zero v log (pyInt warmup).natAbs
      ((pyInt maxIter).natAbs + (pyInt warmup).natAbs) 0 s
    rw [hfit, abs_zero, h]
    omega
  · intro h0
    rw [hfit, h0]
    rfl
  · cases v <;> rfl

/-- C4, witness: the amended bound and the zero-tolerance equality at
concrete arguments, hypotheses discharged. -/
theorem c4_witness :
    ((fit Variant.conditional (fun _ => 0) 0 3 2 uniformState).kl_divergences).length =
      uniformState.kl_divergences.length + (pyInt 3).natAbs + (pyInt 2).natAbs
    ∧ (fit Variant.plsa (fun _ => 0) 5 0 0 uniformState).kl_divergences =
        uniformState.kl_divergences := by
  constructor
  · exact (c4_history_amended Variant.conditional (fun _ => 0) 0 3 2
      uniformState
      { vocabulary := fun _ => "", index := fun _ => none,
        idf := fun _ => 1 }).2.1 rfl
  · refine (c4_history_amended Variant.plsa (fun _ => 0) 5 0 0
      uniformState
      { vocabulary := fun _ => "", index := fun _ => none,
        idf := fun _ => 1 }).2.2.1 ?_
    have hp : pyInt (0 : ℚ) = 0 := by simpa using pyInt_natCast 0
    rw [hp]
    rfl

/-! ## Claim C9 -/

/-- Modelled from the spec (§4.1), word for word: given an array and the
axis to normalize over, (a) clamp any entry below machine epsilon to
exactly zero, (b) sum along the normalization axis to get a divisor per
remaining index, (c) replace any zero divisor with 1, (d) divide
elementwise; return the normalized array and the (possibly clamped)
divisor.  Stated for comparison against the code's `normalizeArr`. -/
def normalizeSpec {n : ℕ} {β : Type} [Fintype β] (a : Fin n → β → ℚ) :
    (Fin n → β → ℚ) × (β → ℚ) :=
  let clamped : Fin n → β → ℚ :=
    fun i j => if a i j < MACHINE_PRECISION then 0 else a i j
  let divisor : β → ℚ :=
    fun j => if (∑ i, clamped i j) = 0 then 1 else ∑ i, clamped i j
  (fun i j => clamped i j / divisor j, divisor)

/-- C9: the normalization utility clamps sub-epsilon entries to exactly
zero, sums along the normalization axis, replaces zero divisors by 1 (so
an all-zero slice maps to an all-zero slice), divides elementwise and
returns the pair — i.e. it coincides with the contract transcribed in
`normalizeSpec` — and it is total with a strictly positive divisor and
all outputs in [0, 1]: no exception, no NaN, no Inf.  (Proved for every
array, hence in particular for the non-negative ones named by the
claim.) -/
theorem c9_normalize_contract {n : ℕ} {β : Type} [Fintype β]
    (a : Fin n → β → ℚ) :
    normalizeArr a = normalizeSpec a
    ∧ (∀ i j, a i j < MACHINE_PRECISION → (normalizeArr a).1 i j = 0)
    ∧ (∀ j, 0 < (normalizeArr a).2 j)
    ∧ (∀ j, (∑ i, clamp (a i j)) = 0 → ∀ i, (normalizeArr a).1 i j = 0)
    ∧ (∀ i j, 0 ≤ (normalizeArr a).1 i j ∧ (normalizeArr a).1 i j ≤ 1) := by
  refine ⟨rfl, ?_, normalizeArr_divisor_pos a, ?_, ?_⟩
  · intro i j hlt
    show clamp (a i j) / _ = 0
    rw [clamp, if_pos hlt, zero_div]
  · intro j h0 i
    have hz : clamp (a i j) = 0 := by
      have := (Finset.sum_eq_zero_iff_of_nonneg
        (fun k _ => clamp_nonneg (a k j))).mp h0 i (Finset.mem_univ i)
      exact this
    show clamp (a i j) / _ = 0
    rw [hz, zero_div]
  · intro i j
    exact ⟨normalizeArr_entry_nonneg a i j, normalizeArr_entry_le_one a i j⟩

/-- A concrete array for the C9 witness: its first column is all zero
(exercising the zero-divisor policy) and its second column holds one
sub-epsilon entry (exercising the clamp) next to an ordinary one. -/
def c9arr : Fin 2 → Fin 2 → ℚ :=
  ![![0, MACHINE_PRECISION / 2], ![0, 1]]

/-- C9, witness: the contract applied to the concrete array, with every
hypothesis discharged there. -/
theorem c9_witness :
    (normalizeArr c9arr).1 0 1 = 0
    ∧ 0 < (normalizeArr c9arr).2 0
    ∧ (normalizeArr c9arr).1 0 0 = 0
    ∧ (normalizeArr c9arr).1 1 0 = 0 := by
  have h := c9_normalize_contract c9arr
  refine ⟨h.2.1 0 1 ?_, h.2.2.1 0, h.2.2.2.1 0 ?_ 0, h.2.2.2.1 0 ?_ 1⟩
  · norm_num [c9arr, MACHINE_PRECISION]
  · norm_num [c9arr, clamp, MACHINE_PRECISION, Fin.sum_univ_succ]
  · norm_num [c9arr, clamp, MACHINE_PRECISION, Fin.sum_univ_succ]

/-! ## Claims C6 and C7 -/

/-- The encoding loop of `predict` on a document whose tokens are all
out of vocabulary: only the overflow slot `n_words` is incremented, once
per token, and every token is appended to the unknown-word list. -/
theorem encodeLoop_oov {W : ℕ} (index : String → Option (Fin W)) :
    ∀ (toks : List String) (enc : Fin (W + 1) → ℚ) (nw : List String),
      (∀ tk ∈ toks, index tk = none) →
      encodeLoop index toks (enc, nw) =
        (Function.update enc (Fin.last W)
          (enc (Fin.last W) + toks.length), nw ++ toks) := by
  intro toks
  induction toks with
  | nil =>
    intro enc nw h
    simp [encodeLoop, Function.update_eq_self]
  | cons tk rest ih =>
    intro enc nw h
    have htk : index tk = none := h tk (by simp)
    have hrest : ∀ x ∈ rest, index x = none := fun x hx => h x (by simp [hx])
    rw [encodeLoop, htk]
    dsimp only
    rw [if_pos rfl, ih _ _ hrest]
    rw [Prod.mk.injEq]
    constructor
    · rw [Function.update_idem, Function.update_same, List.length_cons]
      push_cast
      ring_nf
    · simp

/-- The corpus context used by the concrete predict instances: the
three-word vocabulary a, b, c. -/
def corpusABC : CorpusRef 3 :=
  { vocabulary := !["a", "b", "c"]
    index := fun tk =>
      if tk = "a" then some 0
      else if tk = "b" then some 1
      else if tk = "c" then some 2
      else none
    idf := fun _ => 1 }

/-- A concrete trained-looking engine state for the symmetric variant:
uniform factors on 2 topics, 3 documents, 3 words. -/
def trainedState : PlsaState 2 3 3 :=
  { uniformState with
      doc_given_topic := fun _ _ => 1/3
      word_given_topic := fun _ _ => 1/3
      topic_given_word := fun _ _ => 1/2
      topic := fun _ => 1/2 }

/-- The `PlsaResult` packaged by `PLSA._result` from `trainedState`. -/
def resultTrainedA : PlsaResult 2 3 3 := resultA trainedState corpusABC

/-- C6, counterexample to the claim as stated: the package-wide
`numpy.seterr(all='raise')` (plsa/__init__.py line 21) is in force, so
on the all-out-of-vocabulary document `["zzz"]` the normalization
`encoded /= encoded.sum()` divides the zero count vector by its zero
sum — the invalid operation `0.0/0.0` — and `predict` raises
`FloatingPointError`: it does not return a zero affinity vector, nor
any `n_unknown_words` count or `unknown_words` tuple. -/
theorem c6_counterexample :
    resultTrainedA.predict (["zzz"]) = .error .floatingPointError
    ∧ (resultTrainedA.predict (["zzz"])).isOk = false := by
  have hr : resultTrainedA.corpus.index = corpusABC.index := rfl
  have ht : resultTrainedA.tf_idf = false := rfl
  have henc : encodeDoc corpusABC.index (["zzz"]) =
      (Function.update (fun _ : Fin 4 => (0 : ℚ)) (Fin.last 3) 1, ["zzz"]) := by
    simp [encodeDoc, encodeLoop, corpusABC]
  have hsum : (∑ w : Fin 3, Function.update (fun _ : Fin 4 => (0 : ℚ))
      (Fin.last 3) 1 w.castSucc) = 0 := by
    rw [Fin.sum_univ_succ, Fin.sum_univ_succ, Fin.sum_univ_succ,
      Fin.sum_univ_zero,
      Function.update_noteq (by norm_num [Fin.ext_iff]),
      Function.update_noteq (by norm_num [Fin.ext_iff]),
      Function.update_noteq (by norm_num [Fin.ext_iff])]
    norm_num
  have h1 : resultTrainedA.predict (["zzz"]) = .error .floatingPointError := by
    simp only [PlsaResult.predict, PlsaResult.weightedDoc, hr, ht, henc,
      if_false, Bool.false_eq_true]
    rw [hsum, if_pos rfl]
  exact ⟨h1, by rw [h1]; rfl⟩

/-- C6, amended: on a document whose tokens are all absent from the
vocabulary, the encoded count vector over the known vocabulary is
identically zero, so — with the package-wide `numpy.seterr(all='raise')`
in force — `predict` raises `FloatingPointError` at the normalization
`encoded /= encoded.sum()` (the `0.0/0.0` division, result.py line 76)
and returns nothing at all: no affinity vector, no unknown-word count,
no unknown-word list. -/
theorem c6_predict_oov_amended {T D W : ℕ} (r : PlsaResult T D W)
    (doc : List String) (h : ∀ tk ∈ doc, r.corpus.index tk = none) :
    r.predict doc = .error .floatingPointError := by
  have henc := encodeLoop_oov r.corpus.index doc (fun _ => 0) [] h
  have hcast : ∀ w : Fin W,
      (Function.update (fun _ : Fin (W + 1) => (0 : ℚ)) (Fin.last W)
        ((0 : ℚ) + doc.length)) w.castSucc = 0 := by
    intro w
    rw [Function.update_noteq (Fin.castSucc_lt_last w).ne]
  unfold PlsaResult.predict PlsaResult.weightedDoc encodeDoc
  rw [henc]
  have hw : (if r.tf_idf then
      fun w => (Function.update (fun _ : Fin (W + 1) => (0 : ℚ)) (Fin.last W)
        ((0 : ℚ) + doc.length)) w.castSucc * r.corpus.idf w
    else fun w =>
      (Function.update (fun _ : Fin (W + 1) => (0 : ℚ)) (Fin.last W)
        ((0 : ℚ) + doc.length)) w.castSucc) = fun _ => (0 : ℚ) := by
    split
    · funext w
      rw [hcast w, zero_mul]
    · funext w
      exact hcast w
  dsimp only
  rw [hw]
  simp

/-- C6, witness: the amended statement on a concrete result and the
concrete all-unknown document, hypotheses discharged. -/
theorem c6_witness :
    resultTrainedA.predict (["u", "v"]) = .error .floatingPointError := by
  refine c6_predict_oov_amended resultTrainedA (["u", "v"]) ?_
  intro tk htk
  have hr : resultTrainedA.corpus.index = corpusABC.index := rfl
  rcases (by simpa using htk : tk = "u" ∨ tk = "v") with h1 | h1 <;>
    subst h1 <;> rw [hr] <;> simp [corpusABC]

/-- C7, counterexample to the claim as stated: `PLSA._result` DOES
store an inverse word-topic conditional — it packages
`_invert(word_given_topic, topic)` into the `topic_given_word` slot —
so `predict` on a Result of the symmetric variant raises no capability
error: on the in-vocabulary document `["a"]` it returns the affinity
vector `(1/2, 1/2)` with zero unknown words, and the stored inverse
conditional is the constant 1/2 matrix. -/
theorem c7_counterexample :
    resultTrainedA.predict (["a"]) =
      .ok ((fun _ => (1 : ℚ)/2), 0, ([] : List String))
    ∧ (∀ k w, resultTrainedA.topic_given_word k w = 1/2) := by
  have hr : resultTrainedA.corpus.index = corpusABC.index := rfl
  have ht : resultTrainedA.tf_idf = false := rfl
  have henc : encodeDoc corpusABC.index (["a"]) =
      (Function.update (fun _ : Fin 4 => (0 : ℚ)) ((0 : Fin 3).castSucc) 1,
        []) := by
    simp [encodeDoc, encodeLoop, corpusABC]
  have htgw : ∀ k w, resultTrainedA.topic_given_word k w = 1/2 := by
    intro k w
    show invert trainedState.word_given_topic trainedState.topic
      (argsortDesc trainedState.topic k) w = 1/2
    norm_num [invert, normalizeArr, clamp, trainedState, uniformState,
      MACHINE_PRECISION, Fin.sum_univ_succ]
  have hsum : (∑ w : Fin 3, Function.update (fun _ : Fin 4 => (0 : ℚ))
      ((0 : Fin 3).castSucc) 1 w.castSucc) = 1 := by
    rw [Fin.sum_univ_succ, Fin.sum_univ_succ, Fin.sum_univ_succ,
      Fin.sum_univ_zero, Function.update_same,
      Function.update_noteq (by norm_num [Fin.ext_iff]),
      Function.update_noteq (by norm_num [Fin.ext_iff])]
    norm_num
  refine ⟨?_, htgw⟩
  simp only [PlsaResult.predict, PlsaResult.weightedDoc, hr, ht, henc,
    if_false, Bool.false_eq_true]
  rw [hsum, if_neg (by norm_num)]
  rw [Except.ok.injEq, Prod.mk.injEq, Prod.mk.injEq]
  refine ⟨?_, ?_, rfl⟩
  · funext t
    rw [Fin.sum_univ_succ, Fin.sum_univ_succ, Fin.sum_univ_succ,
      Fin.sum_univ_zero, Function.update_same,
      Function.update_noteq (by norm_num [Fin.ext_iff]),
      Function.update_noteq (by norm_num [Fin.ext_iff])]
    rw [htgw, htgw, htgw]
    norm_num
  · rw [Function.update_noteq (by norm_num [Fin.ext_iff])]
    simpa using pyInt_natCast 0

/-- C7, amended: no capability error exists.  The Result of the
symmetric variant stores the Bayesian-inverted word-topic conditional
(`_invert(word_given_topic, topic)`, third conjunct), and `predict` on
it succeeds — raising no error of any kind — exactly when the weighted
encoding of the document has nonzero sum; in the zero-sum case what is
raised is the numeric `FloatingPointError` of the `0.0/0.0`
normalization under the package-wide `numpy.seterr(all='raise')`, not a
capability error.  All other Result operations are unaffected. -/
theorem c7_predict_amended {T D W : ℕ} (s : PlsaState T D W)
    (c : CorpusRef W) (doc : List String) :
    (((resultA s c).predict doc).isOk = true ↔
      (∑ w, (resultA s c).weightedDoc doc w) ≠ 0)
    ∧ (((resultA s c).predict doc) = .error .floatingPointError ↔
      (∑ w, (resultA s c).weightedDoc doc w) = 0)
    ∧ (∀ k w, (resultA s c).topic_given_word k w =
        invert s.word_given_topic s.topic (argsortDesc s.topic k) w) := by
  refine ⟨?_, ?_, fun k w => rfl⟩
  · by_cases hS : (∑ w, (resultA s c).weightedDoc doc w) = 0
    · simp [PlsaResult.predict, hS, Except.isOk, Except.toBool]
    · simp [PlsaResult.predict, hS, Except.isOk, Except.toBool]
  · by_cases hS : (∑ w, (resultA s c).weightedDoc doc w) = 0
    · simp [PlsaResult.predict, hS]
    · simp [PlsaResult.predict, hS]

/-! ## Claim C8 -/

theorem argsortList_sorted {n : ℕ} (v : Fin n → ℚ) :
    List.Sorted (sortRel v) (argsortList v) :=
  List.sorted_insertionSort (sortRel v) (List.finRange n)

theorem argsortList_nodup {n : ℕ} (v : Fin n → ℚ) :
    (argsortList v).Nodup :=
  ((List.perm_insertionSort (sortRel v) (List.finRange n)).nodup_iff).mpr
    (List.nodup_finRange n)

theorem argsortDesc_bijective {n : ℕ} (v : Fin n → ℚ) :
    Function.Bijective (argsortDesc v) := by
  apply Finite.injective_iff_bijective.mp
  intro k k' hkk
  have hg := List.nodup_iff_injective_get.mp (argsortList_nodup v) hkk
  have hv : ((Fin.cast (argsortList_length v).symm) k).val =
      ((Fin.cast (argsortList_length v).symm) k').val := congrArg Fin.val hg
  exact Fin.ext hv

theorem argsortDesc_antitone {n : ℕ} (v : Fin n → ℚ) (k k' : Fin n)
    (hkk : k ≤ k') : v (argsortDesc v k') ≤ v (argsortDesc v k) := by
  rcases eq_or_lt_of_le hkk with rfl | hlt
  · exact le_refl _
  · have hs := argsortList_sorted v
    have hrel := hs.rel_get_of_lt
      (a := Fin.cast (argsortList_length v).symm k)
      (b := Fin.cast (argsortList_length v).symm k')
      (by exact hlt)
    rcases hrel with h | ⟨h, _⟩
    · exact le_of_lt h
    · exact le_of_eq h.symm

/-- The per-topic tuple list is the argsorted index list, mapped through
vocabulary binding. -/
theorem wordTopicTuples_eq {T W : ℕ} (c : CorpusRef W)
    (wgtP : Fin W → Fin T → ℚ) (k : Fin T) :
    wordTopicTuples c wgtP k =
      (argsortList (fun w => wgtP w k)).map
        (fun w => (c.vocabulary w, wgtP w k)) := by
  apply List.ext_get
  · simp [wordTopicTuples, argsortList_length]
  · intro i h1 h2
    simp only [wordTopicTuples, List.get_eq_getElem, List.getElem_map,
      List.getElem_finRange]
    congr 1

/-- The spec's concrete ordering example: topic weights 0.1, 0.5, 0.4. -/
def exTopicC8 : Fin 3 → ℚ := ![1/10, 1/2, 2/5]

def exCorpusC8 : CorpusRef 1 :=
  { vocabulary := !["x"], index := fun _ => none, idf := fun _ => 1 }

/-- A result packaged from the example topic weights. -/
def exResultC8 : PlsaResult 3 1 1 :=
  mkPlsaResult (fun _ _ => 1) (fun _ _ => 1/3) (fun _ _ => 1) exTopicC8 []
    exCorpusC8 false

/-- C8: the packaged result applies one topic permutation — a bijection
ordering the weights non-increasingly — consistently to the topic
weights, the topic-given-doc array and the topic-given-word array
(conjuncts 1-5); within each topic the (word, probability) tuples are
sorted by non-increasing probability and are exactly the vocabulary
strings paired with the permuted column's probabilities (conjuncts 6-7);
the history is stored unmodified (conjunct 8); and the spec's example
`[0.1, 0.5, 0.4]` comes back as `[0.5, 0.4, 0.1]` (conjunct 9). -/
theorem c8_result_ordering {T D W : ℕ} (tgd : Fin T → Fin D → ℚ)
    (wgt : Fin W → Fin T → ℚ) (tgw : Fin T → Fin W → ℚ)
    (topic : Fin T → ℚ) (kl : List ℚ) (c : CorpusRef W) (b : Bool) :
    Function.Bijective (argsortDesc topic)
    ∧ (mkPlsaResult tgd wgt tgw topic kl c b).topic
        = (fun k => topic (argsortDesc topic k))
    ∧ (mkPlsaResult tgd wgt tgw topic kl c b).topic_given_doc
        = (fun k d => tgd (argsortDesc topic k) d)
    ∧ (mkPlsaResult tgd wgt tgw topic kl c b).topic_given_word
        = (fun k w => tgw (argsortDesc topic k) w)
    ∧ (∀ k k', k ≤ k' →
        (mkPlsaResult tgd wgt tgw topic kl c b).topic k'
          ≤ (mkPlsaResult tgd wgt tgw topic kl c b).topic k)
    ∧ (∀ k, ((mkPlsaResult tgd wgt tgw topic kl c b).word_given_topic k).Pairwise
        (fun p q => q.2 ≤ p.2))
    ∧ (∀ k, ((mkPlsaResult tgd wgt tgw topic kl c b).word_given_topic k).Perm
        ((List.finRange W).map
          (fun w => (c.vocabulary w, wgt w (argsortDesc topic k)))))
    ∧ (mkPlsaResult tgd wgt tgw topic kl c b).kl_divergences = kl
    ∧ (∀ k, exResultC8.topic k = ![(1 : ℚ)/2, 2/5, 1/10] k) := by
  refine ⟨argsortDesc_bijective topic, rfl, rfl, rfl, ?_, ?_, ?_, rfl, ?_⟩
  · intro k k' hkk
    exact argsortDesc_antitone topic k k' hkk
  · intro k
    show (wordTopicTuples c (fun w k2 => wgt w (argsortDesc topic k2)) k).Pairwise _
    rw [wordTopicTuples_eq]
    refine List.Pairwise.map _ ?_ (argsortList_sorted _)
    intro a b2 hab
    rcases hab with h | ⟨h, _⟩
    · exact le_of_lt h
    · exact le_of_eq h.symm
  · intro k
    show (wordTopicTuples c (fun w k2 => wgt w (argsortDesc topic k2)) k).Perm _
    rw [wordTopicTuples_eq]
    exact (List.perm_insertionSort _ _).map _
  · have hs : argsortList (![1/10, 1/2, 2/5] : Fin 3 → ℚ) = [1, 2, 0] := by
      have h0 : List.finRange 3 = [0, 1, 2] := rfl
      rw [argsortList, h0]
      norm_num [List.insertionSort, List.orderedInsert, sortRel,
        Matrix.cons_val_zero, Matrix.cons_val_one, Matrix.head_cons,
        Fin.le_def]
    intro k
    show exTopicC8 (argsortDesc exTopicC8 k) = _
    fin_cases k <;>
      simp only [argsortDesc, exTopicC8, List.get_eq_getElem, Fin.coe_cast] <;>
      rw [List.getElem_of_eq hs] <;>
      norm_num

/-- C8, witness: the ordering statement applied at the example result,
with the order hypothesis of the monotonicity conjunct discharged. -/
theorem c8_witness :
    exResultC8.topic 2 ≤ exResultC8.topic 0
    ∧ Function.Bijective (argsortDesc exTopicC8) := by
  have h := c8_result_ordering (D := 1) (W := 1) (fun _ _ => (1 : ℚ))
    (fun _ _ => (1 : ℚ)/3) (fun _ _ => (1 : ℚ)) exTopicC8 [] exCorpusC8 false
  exact ⟨h.2.2.2.2.1 0 2 (by decide), h.1⟩
